import Mathlib

/-!
Verification of the quickraw container-parsing and decoder-dispatch layer.

Shallow embedding of `src/decode.rs`, `src/maker/canon.rs` and the error
types from `src/lib.rs`.  Byte buffers are `List Nat`; Rust panics
(out-of-bounds slicing, `unimplemented!`) are modelled as the `none`
outcome of an `Option`-wrapped result; fallible code returns `Except`.
The external collaborators that are out of scope for this layer
(the `quickexif` parser and the `maker::selector` dispatch, which is not
part of the sources under verification) are taken as explicit function
parameters of the entry points.
-/

set_option maxRecDepth 8000

deriving instance DecidableEq for Except

namespace Quickraw

/-- Byte buffers.  Each element is the value of one byte. -/
abbrev Bytes := List Nat

/-- JPEG start-of-image marker `FF D8 FF` (as searched by the scanners). -/
def soiMarker : Bytes := [0xff, 0xd8, 0xff]

/-- JPEG end-of-image marker `FF D9`. -/
def eoiMarker : Bytes := [0xff, 0xd9]

/-- The 4-byte FUJI vendor-container magic checked by `fuji_buffer_fix`. -/
def fujiMagic : Bytes := [0x46, 0x55, 0x4a, 0x49]

/-- The 8-byte CR3 box signature `"ftypcrx "` checked at offset 4. -/
def crxMagic : Bytes := [0x66, 0x74, 0x79, 0x70, 0x63, 0x72, 0x78, 0x20]

/-- The 6-byte EXIF marker string `"Exif\0\0"` from `canon_cr3_exif_slice`. -/
def exifHeader : Bytes := [0x45, 0x78, 0x69, 0x66, 0x00, 0x00]

/-- `FF E0 'J' 'F'`: JFIF APP0 marker head used by `is_display_jpeg`. -/
def jfifMarker : Bytes := [0xff, 0xe0, 0x4a, 0x46]

/-- `FF E1 'E' 'x'`: EXIF APP1 marker head used by `is_display_jpeg`. -/
def exifAppMarker : Bytes := [0xff, 0xe1, 0x45, 0x78]

/-- `buffer.windows(pat.len()).position(\x7bw == pat\x7d)`: index of the first
occurrence of `pat` as a contiguous sub-sequence (for non-empty `pat`). -/
def findSub (pat : Bytes) : Bytes → Option Nat
  | [] => none
  | b :: t =>
    if pat.isPrefixOf (b :: t) then some 0
    else (findSub pat t).map (· + 1)

/-- `is_tiff_header` from decode.rs: little- or big-endian TIFF magic. -/
def is_tiff_header (bytes : Bytes) : Bool :=
  bytes == [0x49, 0x49, 0x2a, 0x00] || bytes == [0x4d, 0x4d, 0x00, 0x2a]

/-- `buffer.windows(4).position(is_tiff_header)`: first index whose 4-byte
window is a TIFF header. -/
def findTiff : Bytes → Option Nat
  | [] => none
  | b :: t =>
    if 4 ≤ (b :: t).length ∧ is_tiff_header ((b :: t).take 4) then some 0
    else (findTiff t).map (· + 1)

/-- `fuji_buffer_fix` from decode.rs (owned-Vec version).  `buffer[..4]`
aborts when the buffer is shorter than 4 bytes and `buffer[148..]` aborts
when a FUJI-magic buffer is shorter than 148 bytes; both aborts are
modelled as `none`. -/
def fuji_buffer_fix (buffer : Bytes) : Option Bytes :=
  if buffer.length < 4 then none
  else if buffer.take 4 = fujiMagic then
    if buffer.length < 148 then none else some (buffer.drop 148)
  else some buffer

/-- `fuji_buffer_slice_fix` from decode.rs (borrowed-slice version); its
body is byte-for-byte the same test-and-strip as `fuji_buffer_fix`. -/
def fuji_buffer_slice_fix (buffer : Bytes) : Option Bytes :=
  if buffer.length < 4 then none
  else if buffer.take 4 = fujiMagic then
    if buffer.length < 148 then none else some (buffer.drop 148)
  else some buffer

/-- `prepare_buffer` from decode.rs: append 16 zero bytes (BitPumpMSB
over-read margin), then apply the FUJI container fix. -/
def prepare_buffer (buffer : Bytes) : Option Bytes :=
  fuji_buffer_fix (buffer ++ List.replicate 16 0)

/-- One pass of the `while let` loop shared by `largest_jpeg_slice`
(decode.rs) and `find_largest_jpeg_slice` (canon.rs): find a start-of-image
marker, find the first end-of-image marker after it, keep the candidate if
it is strictly longer than the best so far, and resume at the end
position.  `fuel` only bounds the recursion; the loop advances by at least
5 positions per iteration, so `buffer.length + 1` is never exhausted.
`bestUpdate` is the body's best-candidate replacement
(`best.map(\x7b len > b_len\x7d).unwrap_or(true)`: replace only when
strictly longer). -/
def bestUpdate (soi len : Nat) : Option (Nat × Nat) → Option (Nat × Nat)
  | none => some (soi, len)
  | some (bs, bl) => if bl < len then some (soi, len) else some (bs, bl)

/-- The `while let` scan loop of `largest_jpeg_slice`, see `bestUpdate`. -/
def largestLoop (buffer : Bytes) : Nat → Nat → Option (Nat × Nat) → Option (Nat × Nat)
  | 0, _, best => best
  | fuel + 1, start, best =>
    match findSub soiMarker (buffer.drop start) with
    | none => best
    | some relSoi =>
      let soi := start + relSoi
      match findSub eoiMarker (buffer.drop (soi + 3)) with
      | none => best
      | some relEoi =>
        let e := soi + 3 + relEoi + 2
        largestLoop buffer fuel e (bestUpdate soi (e - soi) best)

/-- `largest_jpeg_slice` from decode.rs: the (first) longest
`FFD8FF ... FFD9` run found by the resumed scan. -/
def largest_jpeg_slice (buffer : Bytes) : Option Bytes :=
  (largestLoop buffer (buffer.length + 1) 0 none).map
    fun p => (buffer.drop p.1).take p.2

/-- `find_largest_jpeg_slice` from canon.rs; its body is byte-for-byte
identical to `largest_jpeg_slice` in decode.rs. -/
def find_largest_jpeg_slice (buffer : Bytes) : Option Bytes :=
  largest_jpeg_slice buffer

/-- The candidate `(start, length)` pairs considered by the scan loop, in
order: the same control flow as `largestLoop`, recording every candidate
instead of the running maximum. -/
def candListLoop (buffer : Bytes) : Nat → Nat → List (Nat × Nat)
  | 0, _ => []
  | fuel + 1, start =>
    match findSub soiMarker (buffer.drop start) with
    | none => []
    | some relSoi =>
      let soi := start + relSoi
      match findSub eoiMarker (buffer.drop (soi + 3)) with
      | none => []
      | some relEoi =>
        let e := soi + 3 + relEoi + 2
        (soi, e - soi) :: candListLoop buffer fuel e

/-- All candidate slices the largest-JPEG scan considers on `buffer`. -/
def candidate_slices (buffer : Bytes) : List (Nat × Nat) :=
  candListLoop buffer (buffer.length + 1) 0

/-- `Orientation` from decode.rs. -/
inductive Orientation
  | Horizontal
  | Rotate90
  | Rotate180
  | Rotate270
deriving DecidableEq

/-- `CFAPattern` from decode.rs. -/
inductive CFAPattern
  | RGGB
  | GRBG
  | GBRG
  | BGGR
  | XTrans0
  | XTrans1
deriving DecidableEq

/-- `Crop` from decode.rs. -/
structure Crop where
  x : Nat
  y : Nat
  width : Nat
  height : Nat
deriving DecidableEq

/-- Errors of the external `quickexif` library (parser and parsed-info
errors), of which this layer only ever constructs `FieldNotFound`. -/
inductive ExifError
  | fieldNotFound (field : String)
  | parseFailure (code : Nat)
deriving DecidableEq

/-- `maker::DecodingError` as used by canon.rs. -/
inductive DecodingError
  | rawInfoError (e : ExifError)
deriving DecidableEq

/-- `RawFileReadingError` from lib.rs (the file-path constructors carry
the offending path; the exif constructors wrap the library error). -/
inductive RawFileReadingError
  | exifParseError (e : ExifError)
  | exifParseInfoError (e : ExifError)
  | decodingError (e : DecodingError)
  | fileNotExisted (path : String)
  | fileMetadataReadingError (path : String)
  | fileContentReadingError (path : String)
  | cannotReadMake
  | cannotReadModel
  | makerIsNotSupportedYet (maker : String)
  | modelIsNotSupportedYet (model : String)
deriving DecidableEq

/-- The opaque `quickexif::ParsedInfo`: a read-only field-name to value
mapping with a typed `usize` getter that fails when a field is absent. -/
structure ParsedInfo where
  fields : List (String × Nat)
deriving DecidableEq

/-- Key of the declared-thumbnail byte offset field. -/
def thumbnailKey : String := "thumbnail"

/-- Key of the declared-thumbnail length field. -/
def thumbnailLenKey : String := "thumbnail_len"

/-- `ParsedInfo::usize`: typed getter, `FieldNotFound` when absent. -/
def ParsedInfo.usize (info : ParsedInfo) (key : String) : Except ExifError Nat :=
  match info.fields.lookup key with
  | some v => Except.ok v
  | none => Except.error (ExifError.fieldNotFound key)

/-- The external `quickexif::parse` applied to the fixed BASIC_INFO_RULE:
out of scope for this layer, taken as an explicit parameter. -/
abbrev ParseFn := Bytes → Except ExifError ParsedInfo

/-- `is_valid_jpeg` from canon.rs: at least 4 bytes, starts with `FF D8`,
and some `FF D9` window occurs anywhere in the slice. -/
def is_valid_jpeg (slice : Bytes) : Bool :=
  if slice.length < 4 ∨ ¬ ([0xff, 0xd8].isPrefixOf slice = true) then false
  else (findSub eoiMarker slice).isSome

/-- Whether a JFIF/EXIF APP marker window starts at offset `i` of `slice`
(the window must fit inside the slice, as Rust `windows(4)` requires). -/
def displayMarkerAt (slice : Bytes) (i : Nat) : Bool :=
  jfifMarker.isPrefixOf (slice.drop i) || exifAppMarker.isPrefixOf (slice.drop i)

/-- `is_display_jpeg` from canon.rs: a valid JPEG with a JFIF/EXIF APP
marker among the first 40 four-byte windows
(`slice.windows(4).take(40).any(..)`, i.e. window offsets 0..39). -/
def is_display_jpeg (slice : Bytes) : Bool :=
  is_valid_jpeg slice && (List.range 40).any fun i => displayMarkerAt slice i

/-- `jpeg_from_exif` from canon.rs: the metadata-declared thumbnail slice,
accepted only when both fields are present, the slice fits the buffer,
has at least 4 bytes, and passes the displayability check. -/
def jpeg_from_exif (buffer : Bytes) (info : ParsedInfo) : Option Bytes :=
  match info.usize thumbnailKey, info.usize thumbnailLenKey with
  | Except.ok offset, Except.ok len =>
    if buffer.length < offset + len ∨ len < 4 then none
    else
      let slice := (buffer.drop offset).take len
      if is_display_jpeg slice then some slice else none
  | _, _ => none

/-- The left-to-right first-valid-slice walk in the `or_else` closure of
`find_display_jpeg_slice` (canon.rs), fuel-bounded like `largestLoop`. -/
def firstJpegLoop (buffer : Bytes) : Nat → Nat → Option Bytes
  | 0, _ => none
  | fuel + 1, start =>
    match findSub soiMarker (buffer.drop start) with
    | none => none
    | some relSoi =>
      let soi := start + relSoi
      match findSub eoiMarker (buffer.drop (soi + 3)) with
      | none => none
      | some relEoi =>
        let e := soi + 3 + relEoi + 2
        let slice := (buffer.drop soi).take (e - soi)
        if is_valid_jpeg slice then some slice
        else firstJpegLoop buffer fuel e

/-- `find_display_jpeg_slice` from canon.rs: the largest slice if it is
displayable, otherwise the first structurally valid slice. -/
def find_display_jpeg_slice (buffer : Bytes) : Option Bytes :=
  match find_largest_jpeg_slice buffer with
  | some s =>
    if is_display_jpeg s then some s
    else firstJpegLoop buffer (buffer.length + 1) 0
  | none => firstJpegLoop buffer (buffer.length + 1) 0

/-- The Canon `General` decoder from canon.rs: holds one `ParsedInfo`. -/
structure General where
  info : ParsedInfo
deriving DecidableEq

/-- `RawDecoder::new` for `General`. -/
def General.new (info : ParsedInfo) : General := ⟨info⟩

/-- `RawDecoder::get_info` for `General`. -/
def General.get_info (g : General) : ParsedInfo := g.info

/-- `RawDecoder::into_info` for `General`. -/
def General.into_info (g : General) : ParsedInfo := g.info

/-- `RawDecoder::get_crop` for `General`: constant `None`. -/
def General.get_crop (_ : General) : Option Crop := none

/-- `RawDecoder::get_cfa_pattern` for `General`: constant `Ok(RGGB)`. -/
def General.get_cfa_pattern (_ : General) : Except DecodingError CFAPattern :=
  Except.ok CFAPattern.RGGB

/-- `RawDecoder::decode_with_preprocess` for `General`: the body is
`unimplemented!(..)`, which aborts; modelled as the `none` outcome. -/
def General.decode_with_preprocess (_ : General) (_ : Bytes) :
    Option (Except DecodingError (List Nat)) :=
  none

/-- `RawDecoder::get_thumbnail` for `General`: the Exif-declared preview
if displayable, else the scanned displayable slice, else a
`FieldNotFound("thumbnail")` error. -/
def General.get_thumbnail (g : General) (buffer : Bytes) :
    Except DecodingError Bytes :=
  match jpeg_from_exif buffer g.info with
  | some exif_jpeg => Except.ok exif_jpeg
  | none =>
    match find_display_jpeg_slice buffer with
    | some scanned => Except.ok scanned
    | none =>
      Except.error (DecodingError.rawInfoError (ExifError.fieldNotFound thumbnailKey))

/-- `is_cr3` check inside `try_cr3_thumbnail`:
`buffer.get(4..12).map(\x7bb == b"ftypcrx "\x7d).unwrap_or(false)`. -/
def is_cr3 (buffer : Bytes) : Bool :=
  if 12 ≤ buffer.length then (buffer.drop 4).take 8 == crxMagic else false

/-- `try_cr3_thumbnail` from decode.rs. -/
def try_cr3_thumbnail (buffer : Bytes) : Option (Bytes × Orientation) :=
  if is_cr3 buffer then
    (largest_jpeg_slice buffer).map fun jpeg => (jpeg, Orientation.Horizontal)
  else none

/-- `canon_cr3_exif_slice` from decode.rs: locate `"Exif\0\0"`, accept a
TIFF header right after it, else scan forward from there, and finally
(also when the marker was found but nothing followed it) scan the whole
buffer for a TIFF header. -/
def canon_cr3_exif_slice (buffer : Bytes) : Option Bytes :=
  match findSub exifHeader buffer with
  | some pos =>
    let after := pos + 6
    if after + 4 ≤ buffer.length ∧ is_tiff_header ((buffer.drop after).take 4) then
      some (buffer.drop after)
    else
      match findTiff (buffer.drop after) with
      | some rel => some (buffer.drop (after + rel))
      | none =>
        match findTiff buffer with
        | some p => some (buffer.drop p)
        | none => none
  | none =>
    match findTiff buffer with
    | some p => some (buffer.drop p)
    | none => none

/-- `parse_basic_info_with_fallback` from decode.rs: FUJI fix, primary
parse, and on failure a re-parse of the embedded TIFF sub-slice; the
sub-slice becomes the effective buffer of the result. -/
def parse_basic_info_with_fallback (parse : ParseFn) (buffer : Bytes) :
    Option (Except RawFileReadingError (ParsedInfo × Bytes)) :=
  match fuji_buffer_slice_fix buffer with
  | none => none
  | some buffer =>
    match parse buffer with
    | Except.ok info => some (Except.ok (info, buffer))
    | Except.error e =>
      match canon_cr3_exif_slice buffer with
      | some exif_buffer =>
        match parse exif_buffer with
        | Except.ok info => some (Except.ok (info, exif_buffer))
        | Except.error e2 =>
          some (Except.error (RawFileReadingError.exifParseError e2))
      | none => some (Except.error (RawFileReadingError.exifParseError e))

/-- `decode_buffer` from decode.rs: prepare (pad + FUJI fix), primary
parse only (no fallback), then hand off to the selector.  The selector
(`maker::selector::select_and_decode`, not part of these sources) is a
parameter; its result type is opaque to this layer. -/
def decode_buffer {α : Type} (parse : ParseFn)
    (select_and_decode : Bytes → ParsedInfo → Except RawFileReadingError α)
    (buffer : Bytes) : Option (Except RawFileReadingError α) :=
  match prepare_buffer buffer with
  | none => none
  | some buffer =>
    match parse buffer with
    | Except.error e => some (Except.error (RawFileReadingError.exifParseError e))
    | Except.ok decoder_select_info =>
      match select_and_decode buffer decoder_select_info with
      | Except.ok decoded_image => some (Except.ok decoded_image)
      | Except.error e => some (Except.error e)

/-- `get_exif_info` from decode.rs, with the selector as a parameter. -/
def get_exif_info (parse : ParseFn)
    (select_and_decode_exif_info : Bytes → ParsedInfo → Except RawFileReadingError ParsedInfo)
    (buffer : Bytes) : Option (Except RawFileReadingError ParsedInfo) :=
  match parse_basic_info_with_fallback parse buffer with
  | none => none
  | some (Except.error e) => some (Except.error e)
  | some (Except.ok (decoder_select_info, buffer)) =>
    some (select_and_decode_exif_info buffer decoder_select_info)

/-- `get_thumbnail` from decode.rs, with the selector as a parameter:
CR3 fast path, then fallback sniffing, then the global last-resort scan
of the original buffer. -/
def get_thumbnail (parse : ParseFn)
    (select_and_decode_thumbnail : Bytes → ParsedInfo → Except RawFileReadingError (Bytes × Orientation))
    (buffer : Bytes) : Option (Except RawFileReadingError (Bytes × Orientation)) :=
  match try_cr3_thumbnail buffer with
  | some result => some (Except.ok result)
  | none =>
    match parse_basic_info_with_fallback parse buffer with
    | none => none
    | some (Except.ok (decoder_select_info, buffer2)) =>
      some (select_and_decode_thumbnail buffer2 decoder_select_info)
    | some (Except.error e) =>
      match largest_jpeg_slice buffer with
      | some jpeg => some (Except.ok (jpeg, Orientation.Horizontal))
      | none => some (Except.error e)

/-! ## Search-primitive lemmas -/

/-- A non-empty pattern is never a prefix of the empty buffer. -/
theorem isPrefixOf_nil_eq_false (pat : Bytes) (hp : pat ≠ []) :
    pat.isPrefixOf ([] : Bytes) = false := by
  cases pat with
  | nil => exact absurd rfl hp
  | cons a as => rfl

/-- `findSub` returns exactly the least index where the pattern occurs. -/
theorem findSub_eq_some_iff (pat l : Bytes) (i : Nat) (hp : pat ≠ []) :
    findSub pat l = some i ↔
      (pat.isPrefixOf (l.drop i) = true ∧
        ∀ j, j < i → pat.isPrefixOf (l.drop j) = false) := by
  induction l generalizing i with
  | nil =>
    simp only [findSub, List.drop_nil]
    constructor
    · intro h; cases h
    · rintro ⟨h1, -⟩
      rw [isPrefixOf_nil_eq_false pat hp] at h1
      cases h1
  | cons b t ih =>
    by_cases h : pat.isPrefixOf (b :: t) = true
    · simp only [findSub, h, if_true]
      cases i with
      | zero =>
        simp only [List.drop_zero, Option.some.injEq]
        exact ⟨fun _ => ⟨h, fun j hj => absurd hj (Nat.not_lt_zero j)⟩, fun _ => trivial⟩
      | succ n =>
        simp only [Option.some.injEq]
        constructor
        · intro h0; cases h0
        · rintro ⟨-, h2⟩
          have := h2 0 (Nat.succ_pos n)
          simp only [List.drop_zero] at this
          rw [h] at this
          cases this
    · have h' : pat.isPrefixOf (b :: t) = false := by
        cases hb : pat.isPrefixOf (b :: t) with
        | false => rfl
        | true => exact absurd hb h
      simp only [findSub, h', Bool.false_eq_true, if_false]
      cases i with
      | zero =>
        simp only [List.drop_zero]
        constructor
        · intro hmap
          obtain ⟨a, -, ha⟩ := Option.map_eq_some'.mp hmap
          cases ha
        · rintro ⟨h1, -⟩
          rw [h'] at h1; cases h1
      | succ n =>
        constructor
        · intro hmap
          obtain ⟨a, hfa, ha⟩ := Option.map_eq_some'.mp hmap
          have hn : a = n := by omega
          subst hn
          obtain ⟨h1, h2⟩ := (ih a).mp hfa
          refine ⟨by simpa using h1, ?_⟩
          intro j hj
          cases j with
          | zero => simpa using h'
          | succ j' => simpa using h2 j' (by omega)
        · rintro ⟨h1, h2⟩
          have h2' : ∀ j, j < n → pat.isPrefixOf (t.drop j) = false := by
            intro j hj
            simpa using h2 (j + 1) (by omega)
          have hr := (ih n).mpr ⟨by simpa using h1, h2'⟩
          rw [hr]
          rfl

/-- `findSub` returns `none` exactly when the pattern occurs nowhere. -/
theorem findSub_eq_none_iff (pat l : Bytes) (hp : pat ≠ []) :
    findSub pat l = none ↔ ∀ j, pat.isPrefixOf (l.drop j) = false := by
  induction l with
  | nil =>
    simp only [findSub, List.drop_nil]
    exact ⟨fun _ j => isPrefixOf_nil_eq_false pat hp, fun _ => trivial⟩
  | cons b t ih =>
    by_cases h : pat.isPrefixOf (b :: t) = true
    · simp only [findSub, h, if_true]
      constructor
      · intro h0; cases h0
      · intro hall
        have := hall 0
        simp only [List.drop_zero] at this
        rw [h] at this
        cases this
    · have h' : pat.isPrefixOf (b :: t) = false := by
        cases hb : pat.isPrefixOf (b :: t) with
        | false => rfl
        | true => exact absurd hb h
      simp only [findSub, h', Bool.false_eq_true, if_false]
      constructor
      · intro hmap j
        have ht : findSub pat t = none := by
          cases hft : findSub pat t with
          | none => rfl
          | some a => rw [hft] at hmap; cases hmap
        cases j with
        | zero => simpa using h'
        | succ j' => simpa using (ih.mp ht) j'
      · intro hall
        have ht : findSub pat t = none := by
          refine ih.mpr fun j => ?_
          simpa using hall (j + 1)
        rw [ht]
        rfl

/-- Any hit of `findSub` lies fully inside the buffer. -/
theorem findSub_some_bound (pat l : Bytes) (i : Nat) (hp : pat ≠ [])
    (h : findSub pat l = some i) : i + pat.length ≤ l.length := by
  obtain ⟨h1, -⟩ := (findSub_eq_some_iff pat l i hp).mp h
  have h2 := List.isPrefixOf_iff_prefix.mp h1
  have h3 := h2.length_le
  rw [List.length_drop] at h3
  have h4 : 0 < pat.length := List.length_pos.mpr hp
  omega

/-- A prefix stays a prefix of a sufficiently long `take`. -/
theorem isPrefixOf_take (pat X : Bytes) (m : Nat) (h : pat.isPrefixOf X = true)
    (hm : pat.length ≤ m) : pat.isPrefixOf (X.take m) = true := by
  rw [List.isPrefixOf_iff_prefix] at h ⊢
  obtain ⟨t, rfl⟩ := h
  refine ⟨t.take (m - pat.length), ?_⟩
  rw [List.take_append_eq_append_take, List.take_of_length_le hm]

/-- A prefix of a `take` is a prefix of the whole buffer. -/
theorem isPrefixOf_of_take (pat X : Bytes) (m : Nat)
    (h : pat.isPrefixOf (X.take m) = true) : pat.isPrefixOf X = true := by
  rw [List.isPrefixOf_iff_prefix] at h ⊢
  exact h.trans ⟨X.drop m, List.take_append_drop m X⟩

/-- A `findSub` hit is preserved by truncation past the hit. -/
theorem findSub_take (pat l : Bytes) (i m : Nat) (hp : pat ≠ [])
    (h : findSub pat l = some i) (hm : i + pat.length ≤ m) :
    findSub pat (l.take m) = some i := by
  obtain ⟨h1, h2⟩ := (findSub_eq_some_iff pat l i hp).mp h
  refine (findSub_eq_some_iff pat (l.take m) i hp).mpr ⟨?_, ?_⟩
  · rw [List.drop_take]
    exact isPrefixOf_take _ _ _ h1 (by omega)
  · intro j hj
    cases hc : pat.isPrefixOf ((l.take m).drop j) with
    | false => rfl
    | true =>
      rw [List.drop_take] at hc
      have := isPrefixOf_of_take _ _ _ hc
      rw [h2 j hj] at this
      cases this

/-- Whether a TIFF header window starts at offset `i` of `l`. -/
def tiffAt (l : Bytes) (i : Nat) : Bool :=
  decide (i + 4 ≤ l.length) && is_tiff_header ((l.drop i).take 4)

/-- `tiffAt` shifts across a cons cell. -/
theorem tiffAt_cons_succ (b : Nat) (t : Bytes) (j : Nat) :
    tiffAt (b :: t) (j + 1) = tiffAt t j := by
  simp only [tiffAt, List.drop_succ_cons, List.length_cons]
  congr 1
  rw [decide_eq_decide]
  omega

/-- `findTiff` returns exactly the least offset of a TIFF header window. -/
theorem findTiff_eq_some_iff (l : Bytes) (i : Nat) :
    findTiff l = some i ↔ (tiffAt l i = true ∧ ∀ j, j < i → tiffAt l j = false) := by
  induction l generalizing i with
  | nil =>
    simp only [findTiff]
    constructor
    · intro h; cases h
    · rintro ⟨h1, -⟩
      simp [tiffAt] at h1
  | cons b t ih =>
    have hzero : tiffAt (b :: t) 0 = true ↔
        (4 ≤ (b :: t).length ∧ is_tiff_header ((b :: t).take 4) = true) := by
      simp [tiffAt]
    by_cases h : 4 ≤ (b :: t).length ∧ is_tiff_header ((b :: t).take 4) = true
    · simp only [findTiff, if_pos h]
      cases i with
      | zero =>
        simp only [Option.some.injEq]
        exact ⟨fun _ => ⟨hzero.mpr h, fun j hj => absurd hj (Nat.not_lt_zero j)⟩,
          fun _ => trivial⟩
      | succ n =>
        simp only [Option.some.injEq]
        constructor
        · intro h0; cases h0
        · rintro ⟨-, h2⟩
          have := h2 0 (Nat.succ_pos n)
          rw [hzero.mpr h] at this
          cases this
    · simp only [findTiff, if_neg h]
      have hz : tiffAt (b :: t) 0 = false := by
        cases hb : tiffAt (b :: t) 0 with
        | false => rfl
        | true => exact absurd (hzero.mp hb) h
      cases i with
      | zero =>
        constructor
        · intro hmap
          obtain ⟨a, -, ha⟩ := Option.map_eq_some'.mp hmap
          cases ha
        · rintro ⟨h1, -⟩
          rw [hz] at h1; cases h1
      | succ n =>
        constructor
        · intro hmap
          obtain ⟨a, hfa, ha⟩ := Option.map_eq_some'.mp hmap
          have hn : a = n := by omega
          subst hn
          obtain ⟨h1, h2⟩ := (ih a).mp hfa
          refine ⟨by rwa [tiffAt_cons_succ], ?_⟩
          intro j hj
          cases j with
          | zero => exact hz
          | succ j' => rw [tiffAt_cons_succ]; exact h2 j' (by omega)
        · rintro ⟨h1, h2⟩
          have h2' : ∀ j, j < n → tiffAt t j = false := by
            intro j hj
            rw [← tiffAt_cons_succ b]
            exact h2 (j + 1) (by omega)
          have hr := (ih n).mpr ⟨by rwa [tiffAt_cons_succ] at h1, h2'⟩
          rw [hr]
          rfl

/-- `findTiff` returns `none` exactly when no TIFF header window exists. -/
theorem findTiff_eq_none_iff (l : Bytes) :
    findTiff l = none ↔ ∀ j, tiffAt l j = false := by
  induction l with
  | nil =>
    simp only [findTiff]
    refine ⟨fun _ j => ?_, fun _ => trivial⟩
    simp [tiffAt]
  | cons b t ih =>
    by_cases h : 4 ≤ (b :: t).length ∧ is_tiff_header ((b :: t).take 4) = true
    · simp only [findTiff, if_pos h]
      constructor
      · intro h0; cases h0
      · intro hall
        have h0 := hall 0
        have hz : tiffAt (b :: t) 0 = true := by
          simp only [tiffAt, List.drop_zero, Nat.zero_add]
          rw [Bool.and_eq_true]
          exact ⟨decide_eq_true h.1, h.2⟩
        rw [hz] at h0
        cases h0
    · simp only [findTiff, if_neg h]
      constructor
      · intro hmap j
        have ht : findTiff t = none := by
          cases hft : findTiff t with
          | none => rfl
          | some a => rw [hft] at hmap; cases hmap
        cases j with
        | zero =>
          cases hz : tiffAt (b :: t) 0 with
          | false => rfl
          | true =>
            exfalso
            apply h
            simpa [tiffAt] using hz
        | succ j' =>
          rw [tiffAt_cons_succ]
          exact (ih.mp ht) j'
      · intro hall
        have ht : findTiff t = none := by
          refine ih.mpr fun j => ?_
          rw [← tiffAt_cons_succ b]
          exact hall (j + 1)
        rw [ht]
        rfl

/-! ## Scan-loop lemmas -/

/-- Invariant of every candidate `(start, length)` the scan records: a
start-of-image marker at `start`, and the first end-of-image marker at or
after `start + 3` closing the slice at `start + length`. -/
def goodCand (buffer : Bytes) (p : Nat × Nat) : Prop :=
  soiMarker.isPrefixOf (buffer.drop p.1) = true ∧
  findSub eoiMarker (buffer.drop (p.1 + 3)) = some (p.2 - 5) ∧ 5 ≤ p.2

/-- The candidates are chained: each starts at or after the floor
position, and the floor for the rest is the end of the head candidate
(hence candidates never overlap). -/
def chainedFrom : Nat → List (Nat × Nat) → Prop
  | _, [] => True
  | s, p :: rest => s ≤ p.1 ∧ chainedFrom (p.1 + p.2) rest

/-- Every recorded candidate satisfies the scan invariant. -/
theorem candListLoop_good (buffer : Bytes) :
    ∀ fuel start, ∀ p ∈ candListLoop buffer fuel start, goodCand buffer p := by
  intro fuel
  induction fuel with
  | zero =>
    intro start p hp
    simp only [candListLoop] at hp
    exact absurd hp (List.not_mem_nil p)
  | succ n ih =>
    intro start p hp
    cases h1 : findSub soiMarker (buffer.drop start) with
    | none =>
      simp only [candListLoop, h1] at hp
      exact absurd hp (List.not_mem_nil p)
    | some relSoi =>
      cases h2 : findSub eoiMarker (buffer.drop (start + relSoi + 3)) with
      | none =>
        simp only [candListLoop, h1, h2] at hp
        exact absurd hp (List.not_mem_nil p)
      | some relEoi =>
        simp only [candListLoop, h1, h2, List.mem_cons] at hp
        rcases hp with rfl | hp
        · have he : start + relSoi + 3 + relEoi + 2 - (start + relSoi) = relEoi + 5 := by
            omega
          simp only [goodCand, he]
          refine ⟨?_, ?_, by omega⟩
          · have := ((findSub_eq_some_iff _ _ _ (by decide)).mp h1).1
            rwa [List.drop_drop] at this
          · have h5 : relEoi + 5 - 5 = relEoi := by omega
            rw [h5]
            exact h2
        · exact ih _ p hp

/-- The recorded candidates are chained from the scan's floor position. -/
theorem candListLoop_chained (buffer : Bytes) :
    ∀ fuel start, chainedFrom start (candListLoop buffer fuel start) := by
  intro fuel
  induction fuel with
  | zero =>
    intro start
    simp only [candListLoop, chainedFrom]
  | succ n ih =>
    intro start
    cases h1 : findSub soiMarker (buffer.drop start) with
    | none => simp only [candListLoop, h1, chainedFrom]
    | some relSoi =>
      cases h2 : findSub eoiMarker (buffer.drop (start + relSoi + 3)) with
      | none => simp only [candListLoop, h1, h2, chainedFrom]
      | some relEoi =>
        simp only [candListLoop, h1, h2, chainedFrom]
        refine ⟨by omega, ?_⟩
        have he : start + relSoi + (start + relSoi + 3 + relEoi + 2 - (start + relSoi)) =
            start + relSoi + 3 + relEoi + 2 := by omega
        rw [he]
        exact ih (start + relSoi + 3 + relEoi + 2)

/-- Starting the scan with a best candidate, the result exists and is at
least as long as that candidate. -/
theorem largestLoop_ge (buffer : Bytes) :
    ∀ fuel start b, ∃ q, largestLoop buffer fuel start (some b) = some q ∧ b.2 ≤ q.2 := by
  intro fuel
  induction fuel with
  | zero =>
    intro start b
    exact ⟨b, rfl, Nat.le_refl _⟩
  | succ n ih =>
    intro start b
    obtain ⟨bs, bl⟩ := b
    cases h1 : findSub soiMarker (buffer.drop start) with
    | none => exact ⟨(bs, bl), by simp only [largestLoop, h1], Nat.le_refl _⟩
    | some relSoi =>
      cases h2 : findSub eoiMarker (buffer.drop (start + relSoi + 3)) with
      | none => exact ⟨(bs, bl), by simp only [largestLoop, h1, h2], Nat.le_refl _⟩
      | some relEoi =>
        have he : start + relSoi + 3 + relEoi + 2 - (start + relSoi) = relEoi + 5 := by
          omega
        by_cases hb : bl < relEoi + 5
        · obtain ⟨q, hq, hle⟩ :=
            ih (start + relSoi + 3 + relEoi + 2) (start + relSoi, relEoi + 5)
          refine ⟨q, ?_, by omega⟩
          simp only [largestLoop, h1, h2, he, bestUpdate, if_pos hb]
          exact hq
        · obtain ⟨q, hq, hle⟩ := ih (start + relSoi + 3 + relEoi + 2) (bs, bl)
          refine ⟨q, ?_, hle⟩
          simp only [largestLoop, h1, h2, he, bestUpdate, if_neg hb]
          exact hq

/-- The scan's result is a recorded candidate or the initial best. -/
theorem largestLoop_mem (buffer : Bytes) :
    ∀ fuel start best q, largestLoop buffer fuel start best = some q →
      q ∈ candListLoop buffer fuel start ∨ best = some q := by
  intro fuel
  induction fuel with
  | zero =>
    intro start best q h
    right
    exact h
  | succ n ih =>
    intro start best q h
    cases h1 : findSub soiMarker (buffer.drop start) with
    | none =>
      right
      simpa only [largestLoop, h1] using h
    | some relSoi =>
      cases h2 : findSub eoiMarker (buffer.drop (start + relSoi + 3)) with
      | none =>
        right
        simpa only [largestLoop, h1, h2] using h
      | some relEoi =>
        have he : start + relSoi + 3 + relEoi + 2 - (start + relSoi) = relEoi + 5 := by
          omega
        simp only [largestLoop, h1, h2, he] at h
        have hhead : (start + relSoi, relEoi + 5) ∈ candListLoop buffer (n + 1) start := by
          simp only [candListLoop, h1, h2, he, List.mem_cons]
          left
          trivial
        have htail : ∀ r, r ∈ candListLoop buffer n (start + relSoi + 3 + relEoi + 2) →
            r ∈ candListLoop buffer (n + 1) start := by
          intro r hr
          simp only [candListLoop, h1, h2, he, List.mem_cons]
          right
          exact hr
        cases best with
        | none =>
          simp only [bestUpdate] at h
          rcases ih _ _ _ h with hmem | hbest
          · exact Or.inl (htail q hmem)
          · left
            obtain rfl : (start + relSoi, relEoi + 5) = q := Option.some.inj hbest
            exact hhead
        | some b =>
          obtain ⟨bs, bl⟩ := b
          simp only [bestUpdate] at h
          by_cases hb : bl < relEoi + 5
          · rw [if_pos hb] at h
            rcases ih _ _ _ h with hmem | hbest
            · exact Or.inl (htail q hmem)
            · left
              obtain rfl : (start + relSoi, relEoi + 5) = q := Option.some.inj hbest
              exact hhead
          · rw [if_neg hb] at h
            rcases ih _ _ _ h with hmem | hbest
            · exact Or.inl (htail q hmem)
            · right
              exact hbest

/-- The scan's result is at least as long as every recorded candidate. -/
theorem largestLoop_max (buffer : Bytes) :
    ∀ fuel start best p, p ∈ candListLoop buffer fuel start →
      ∀ q, largestLoop buffer fuel start best = some q → p.2 ≤ q.2 := by
  intro fuel
  induction fuel with
  | zero =>
    intro start best p hp
    simp only [candListLoop] at hp
    exact absurd hp (List.not_mem_nil p)
  | succ n ih =>
    intro start best p hp q hq
    cases h1 : findSub soiMarker (buffer.drop start) with
    | none =>
      simp only [candListLoop, h1] at hp
      exact absurd hp (List.not_mem_nil p)
    | some relSoi =>
      cases h2 : findSub eoiMarker (buffer.drop (start + relSoi + 3)) with
      | none =>
        simp only [candListLoop, h1, h2] at hp
        exact absurd hp (List.not_mem_nil p)
      | some relEoi =>
        have he : start + relSoi + 3 + relEoi + 2 - (start + relSoi) = relEoi + 5 := by
          omega
        simp only [candListLoop, h1, h2, he, List.mem_cons] at hp
        simp only [largestLoop, h1, h2, he] at hq
        rcases hp with rfl | hp
        · cases best with
          | none =>
            simp only [bestUpdate] at hq
            obtain ⟨q', hq', hle⟩ :=
              largestLoop_ge buffer n (start + relSoi + 3 + relEoi + 2) (start + relSoi, relEoi + 5)
            rw [hq] at hq'
            obtain rfl : q = q' := Option.some.inj hq'
            exact hle
          | some b =>
            obtain ⟨bs, bl⟩ := b
            simp only [bestUpdate] at hq
            by_cases hb : bl < relEoi + 5
            · rw [if_pos hb] at hq
              obtain ⟨q', hq', hle⟩ :=
                largestLoop_ge buffer n (start + relSoi + 3 + relEoi + 2) (start + relSoi, relEoi + 5)
              rw [hq] at hq'
              obtain rfl : q = q' := Option.some.inj hq'
              exact hle
            · rw [if_neg hb] at hq
              obtain ⟨q', hq', hle⟩ :=
                largestLoop_ge buffer n (start + relSoi + 3 + relEoi + 2) (bs, bl)
              rw [hq] at hq'
              obtain rfl : q = q' := Option.some.inj hq'
              simp only at hle ⊢
              omega
        · cases best with
          | none =>
            simp only [bestUpdate] at hq
            exact ih _ _ p hp q hq
          | some b =>
            obtain ⟨bs, bl⟩ := b
            simp only [bestUpdate] at hq
            by_cases hb : bl < relEoi + 5
            · rw [if_pos hb] at hq
              exact ih _ _ p hp q hq
            · rw [if_neg hb] at hq
              exact ih _ _ p hp q hq

/-- Decomposition of a successful largest-slice scan: the returned slice
is a recorded candidate of maximal length. -/
theorem largest_spec (buffer s : Bytes) (h : largest_jpeg_slice buffer = some s) :
    ∃ p, p ∈ candidate_slices buffer ∧ s = (buffer.drop p.1).take p.2 ∧
      goodCand buffer p ∧ ∀ q ∈ candidate_slices buffer, q.2 ≤ p.2 := by
  simp only [largest_jpeg_slice] at h
  obtain ⟨p, hp, hs⟩ := Option.map_eq_some'.mp h
  rcases largestLoop_mem buffer _ _ _ p hp with hmem | hbest
  · exact ⟨p, hmem, hs.symm, candListLoop_good buffer _ _ p hmem,
      fun q hq => largestLoop_max buffer _ _ none q hq p hp⟩
  · cases hbest

/-- A recorded candidate lies inside the buffer. -/
theorem goodCand_bound (buffer : Bytes) (p : Nat × Nat) (hg : goodCand buffer p) :
    p.1 + p.2 ≤ buffer.length := by
  obtain ⟨hpre, hfind, hlen⟩ := hg
  have h1 := (List.isPrefixOf_iff_prefix.mp hpre).length_le
  rw [List.length_drop] at h1
  have h2 := findSub_some_bound eoiMarker _ _ (by decide) hfind
  rw [List.length_drop] at h2
  have h3 : soiMarker.length = 3 := by decide
  have h4 : eoiMarker.length = 2 := by decide
  rw [h3] at h1
  rw [h4] at h2
  omega

/-- The slice-level facts about a successful largest-slice scan: at least
5 bytes, starts with the start-of-image marker, and the first end-of-image
marker at offset 3 or later closes the slice exactly at its end. -/
theorem largest_slice_facts (buffer s : Bytes) (h : largest_jpeg_slice buffer = some s) :
    5 ≤ s.length ∧ soiMarker.isPrefixOf s = true ∧
    findSub eoiMarker (s.drop 3) = some (s.length - 5) := by
  obtain ⟨p, hmem, rfl, hg, -⟩ := largest_spec buffer _ h
  have hb := goodCand_bound buffer p hg
  obtain ⟨hpre, hfind, hlen⟩ := hg
  have hlength : ((buffer.drop p.1).take p.2).length = p.2 := by
    rw [List.length_take, List.length_drop]
    omega
  refine ⟨by omega, ?_, ?_⟩
  · refine isPrefixOf_take _ _ _ hpre ?_
    have h3 : soiMarker.length = 3 := by decide
    omega
  · rw [hlength, List.drop_take, List.drop_drop]
    refine findSub_take _ _ _ _ (by decide) hfind ?_
    have h4 : eoiMarker.length = 2 := by decide
    omega

/-! ## Claim theorems -/

/-- C10: for every `ParsedInfo` it is constructed with, the Canon
(`General`) decoder's `get_cfa_pattern` returns `Ok(RGGB)` and its
`get_crop` returns `None` — constants independent of the file's actual
metadata, with the CFA-pattern error branch never taken. -/
theorem c10_canon_constants (info : ParsedInfo) :
    General.get_crop (General.new info) = none ∧
    General.get_cfa_pattern (General.new info) = Except.ok CFAPattern.RGGB :=
  ⟨rfl, rfl⟩

def c6ex : Bytes := fujiMagic ++ List.replicate 144 0 ++ fujiMagic ++ List.replicate 144 0

def c6exOnce : Bytes := fujiMagic ++ List.replicate 144 0

/-- C6 counterexample: on a buffer whose stripped remainder itself starts
with the FUJI magic, re-applying the unwrap strips again (here all the
way to the empty buffer), so re-application is not a no-op. -/
theorem c6_counterexample :
    fuji_buffer_slice_fix c6ex = some c6exOnce ∧
    fuji_buffer_slice_fix c6exOnce = some [] ∧
    c6exOnce ≠ [] := by decide

/-- C6 amended: a FUJI-magic buffer of length ≥ 148 is stripped of
exactly the 148-byte header; a non-magic buffer of length ≥ 4 is returned
unchanged; re-application is a no-op provided the unwrapped result does
not itself start with the magic (and has at least 4 bytes, below which
the check aborts); the owned and borrowed variants agree. -/
theorem c6_unwrap (b : Bytes) :
    (b.take 4 = fujiMagic → 148 ≤ b.length → fuji_buffer_slice_fix b = some (b.drop 148)) ∧
    (b.take 4 ≠ fujiMagic → 4 ≤ b.length → fuji_buffer_slice_fix b = some b) ∧
    (∀ b2, fuji_buffer_slice_fix b = some b2 → b2.take 4 ≠ fujiMagic → 4 ≤ b2.length →
      fuji_buffer_slice_fix b2 = some b2) ∧
    fuji_buffer_fix b = fuji_buffer_slice_fix b := by
  refine ⟨?_, ?_, ?_, rfl⟩
  · intro hm hl
    simp only [fuji_buffer_slice_fix]
    rw [if_neg (by omega), if_pos hm, if_neg (by omega)]
  · intro hm hl
    simp only [fuji_buffer_slice_fix]
    rw [if_neg (by omega), if_neg hm]
  · intro b2 _ hm hl
    simp only [fuji_buffer_slice_fix]
    rw [if_neg (by omega), if_neg hm]

theorem c6_unwrap_witness : fuji_buffer_slice_fix c6exOnce = some [] := by
  have h := (c6_unwrap c6exOnce).1 (by decide) (by decide)
  rw [h]
  decide

def c2ex : Bytes :=
  [0xff, 0xd8] ++ List.replicate 48 0 ++ jfifMarker ++ List.replicate 24 0 ++ eoiMarker

/-- C2 counterexample: a structurally valid JPEG whose JFIF marker starts
at offset 50 — inside the first 80 bytes — which the classifier does NOT
classify displayable, because the code inspects only window offsets
0..39. -/
theorem c2_counterexample :
    is_valid_jpeg c2ex = true ∧
    ((List.range 80).any fun i => displayMarkerAt c2ex i) = true ∧
    is_display_jpeg c2ex = false := by decide

/-- C2 amended: a structurally valid JPEG slice is classified displayable
iff a JFIF (`FF E0 'J' 'F'`) or EXIF (`FF E1 'E' 'x'`) marker window
starts at an offset below 40 (the first 40 four-byte windows); in
particular a slice with no such marker anywhere in its first 80 bytes is
classified non-displayable. -/
theorem c2_display_window (s : Bytes) (hv : is_valid_jpeg s = true) :
    (is_display_jpeg s = true ↔ ∃ i, i < 40 ∧ displayMarkerAt s i = true) ∧
    ((∀ i, i < 80 → displayMarkerAt s i = false) → is_display_jpeg s = false) := by
  have h1 : is_display_jpeg s = ((List.range 40).any fun i => displayMarkerAt s i) := by
    simp only [is_display_jpeg, hv, Bool.true_and]
  constructor
  · rw [h1, List.any_eq_true]
    constructor
    · rintro ⟨i, hi, hm⟩
      exact ⟨i, List.mem_range.mp hi, hm⟩
    · rintro ⟨i, hi, hm⟩
      exact ⟨i, List.mem_range.mpr hi, hm⟩
  · intro hnone
    rw [h1]
    cases hc : (List.range 40).any fun i => displayMarkerAt s i with
    | false => rfl
    | true =>
      exfalso
      obtain ⟨i, hi, hm⟩ := List.any_eq_true.mp hc
      rw [hnone i (by have := List.mem_range.mp hi; omega)] at hm
      cases hm

def c2w : Bytes := [0xff, 0xd8, 0xff, 0xe0, 0x4a, 0x46, 0xff, 0xd9]

theorem c2_display_window_witness : is_display_jpeg c2w = true :=
  (c2_display_window c2w (by decide)).1.mpr ⟨2, by decide, by decide⟩

def c3ex : Bytes := [0xff, 0xd8, 0xff, 0x00, 0xff, 0xd9, 0x00, 0xff, 0xd9]

/-- C3 counterexample: the only start-of-image marker of `c3ex` is at
offset 0 and the last FFD9 (with no next start marker after it) ends at
offset 9, yet the scan records the slice closed by the FIRST FFD9,
returning the 6-byte slice instead of the whole 9-byte run. -/
theorem c3_counterexample :
    largest_jpeg_slice c3ex = some (c3ex.take 6) ∧
    findSub soiMarker (c3ex.drop 1) = none ∧
    eoiMarker.isPrefixOf (c3ex.drop 7) = true ∧
    c3ex.take 6 ≠ c3ex := by decide

/-- C3 amended: every slice the scan records for a start extends through
the FIRST matching end-of-image marker at or after start + 3 — the
returned slice starts with FFD8FF and the least FFD9 window at offset ≥ 3
closes the slice exactly at its end. -/
theorem c3_slice_ends_at_first_eoi (buffer s : Bytes)
    (h : largest_jpeg_slice buffer = some s) :
    5 ≤ s.length ∧ soiMarker.isPrefixOf s = true ∧
    findSub eoiMarker (s.drop 3) = some (s.length - 5) :=
  largest_slice_facts buffer s h

def c3w : Bytes := [0xff, 0xd8, 0xff, 0x00, 0xff, 0xd9]

theorem c3_slice_ends_at_first_eoi_witness :
    5 ≤ c3w.length ∧ soiMarker.isPrefixOf c3w = true ∧
    findSub eoiMarker (c3w.drop 3) = some (c3w.length - 5) :=
  c3_slice_ends_at_first_eoi c3w c3w (by decide)

def sbRun200 : Bytes := soiMarker ++ List.replicate 195 0 ++ eoiMarker

def sbBuf : Bytes := (soiMarker ++ List.replicate 45 0 ++ eoiMarker) ++ sbRun200

/-- C4: the scan's candidate slices are chained (each new search resumes
at the end of the previously matched slice, so candidates never overlap),
every returned slice starts with FFD8FF and ends with FFD9 and is a
candidate of maximal length, and on a buffer holding two disjoint
FFD8FF..FFD9 runs of lengths 50 and 200 the scan returns the 200-byte
run. -/
theorem c4_scan_maximal :
    (∀ buffer : Bytes, chainedFrom 0 (candidate_slices buffer)) ∧
    (∀ buffer s, largest_jpeg_slice buffer = some s →
      soiMarker.isPrefixOf s = true ∧
      eoiMarker.isPrefixOf (s.drop (s.length - 2)) = true ∧
      ∃ p, p ∈ candidate_slices buffer ∧ s = (buffer.drop p.1).take p.2 ∧
        ∀ q ∈ candidate_slices buffer, q.2 ≤ p.2) ∧
    largest_jpeg_slice sbBuf = some sbRun200 := by
  refine ⟨?_, ?_, by decide⟩
  · intro buffer
    exact candListLoop_chained buffer _ 0
  · intro buffer s h
    obtain ⟨hlen, hsoi, hfind⟩ := largest_slice_facts buffer s h
    obtain ⟨p, hmem, hs, -, hmax⟩ := largest_spec buffer s h
    refine ⟨hsoi, ?_, p, hmem, hs, hmax⟩
    have h1 := ((findSub_eq_some_iff _ _ _ (by decide)).mp hfind).1
    rw [List.drop_drop] at h1
    have he : 3 + (s.length - 5) = s.length - 2 := by omega
    rwa [he] at h1

theorem c4_scan_maximal_witness :
    soiMarker.isPrefixOf sbRun200 = true ∧
    eoiMarker.isPrefixOf (sbRun200.drop (sbRun200.length - 2)) = true ∧
    ∃ p, p ∈ candidate_slices sbBuf ∧ sbRun200 = (sbBuf.drop p.1).take p.2 ∧
      ∀ q ∈ candidate_slices sbBuf, q.2 ≤ p.2 :=
  c4_scan_maximal.2.1 sbBuf sbRun200 (by decide)

/-- C5: in metadata-driven thumbnail extraction, a declared slice whose
offset+len equals the buffer length exactly is accepted for consideration
(the outcome is then decided solely by the displayability check of that
slice), while the declared source is rejected — yielding `none`, which
sends `get_thumbnail` to the fallback scan rather than to an error —
whenever the `thumbnail` or `thumbnail_len` field is missing, offset+len
exceeds the buffer length, or len < 4. -/
theorem c5_declared_thumbnail (buffer : Bytes) (info : ParsedInfo) :
    (∀ e, info.usize thumbnailKey = Except.error e → jpeg_from_exif buffer info = none) ∧
    (∀ e, info.usize thumbnailLenKey = Except.error e → jpeg_from_exif buffer info = none) ∧
    (∀ off len, info.usize thumbnailKey = Except.ok off →
      info.usize thumbnailLenKey = Except.ok len →
      (buffer.length < off + len ∨ len < 4) → jpeg_from_exif buffer info = none) ∧
    (∀ off len, info.usize thumbnailKey = Except.ok off →
      info.usize thumbnailLenKey = Except.ok len →
      off + len = buffer.length → 4 ≤ len →
      jpeg_from_exif buffer info =
        (if is_display_jpeg ((buffer.drop off).take len) then
          some ((buffer.drop off).take len) else none)) ∧
    (jpeg_from_exif buffer info = none →
      General.get_thumbnail (General.new info) buffer =
        (match find_display_jpeg_slice buffer with
         | some s => Except.ok s
         | none => Except.error (DecodingError.rawInfoError
             (ExifError.fieldNotFound thumbnailKey)))) := by
  refine ⟨?_, ?_, ?_, ?_, ?_⟩
  · intro e he
    cases h2 : info.usize thumbnailLenKey with
    | error e2 => simp only [jpeg_from_exif, he, h2]
    | ok len => simp only [jpeg_from_exif, he, h2]
  · intro e he
    cases h1 : info.usize thumbnailKey with
    | error e1 => simp only [jpeg_from_exif, h1, he]
    | ok off => simp only [jpeg_from_exif, h1, he]
  · intro off len h1 h2 hcond
    simp only [jpeg_from_exif, h1, h2]
    rw [if_pos hcond]
  · intro off len h1 h2 hfit h4
    simp only [jpeg_from_exif, h1, h2]
    rw [if_neg (by omega)]
  · intro hj
    simp only [General.get_thumbnail, General.new, hj]

def c5info : ParsedInfo := ⟨[(thumbnailKey, 0), (thumbnailLenKey, 4)]⟩

def c5buf : Bytes := [0xff, 0xd8, 0xff, 0xd9]

theorem c5_declared_thumbnail_witness : jpeg_from_exif c5buf c5info = none := by
  have h := (c5_declared_thumbnail c5buf c5info).2.2.2.1 0 4
    (by decide) (by decide) (by decide) (by decide)
  rw [h]
  decide

/-- C8: whenever metadata sniffing (including its fallback) fails, the
thumbnail entry point returns the largest valid JPEG slice of the entire
original buffer paired with Horizontal orientation when such a slice
exists, and propagates the original sniffing error unchanged when none
does (a CR3 fast-path hit returns that same largest slice, so the
description covers it too). -/
theorem c8_last_resort (parse : ParseFn)
    (selT : Bytes → ParsedInfo → Except RawFileReadingError (Bytes × Orientation))
    (buffer : Bytes) (e : RawFileReadingError)
    (h : parse_basic_info_with_fallback parse buffer = some (Except.error e)) :
    get_thumbnail parse selT buffer =
      some (match largest_jpeg_slice buffer with
            | some jpeg => Except.ok (jpeg, Orientation.Horizontal)
            | none => Except.error e) := by
  cases hc : try_cr3_thumbnail buffer with
  | some result =>
    simp only [get_thumbnail, hc]
    simp only [try_cr3_thumbnail] at hc
    by_cases hcr : is_cr3 buffer = true
    · rw [if_pos hcr] at hc
      obtain ⟨jpeg, hj, hr⟩ := Option.map_eq_some'.mp hc
      simp only [hj]
      rw [← hr]
    · rw [if_neg hcr] at hc
      cases hc
  | none =>
    simp only [get_thumbnail, hc, h]
    cases largest_jpeg_slice buffer with
    | some jpeg => rfl
    | none => rfl

def parseFail : ParseFn := fun _ => Except.error (ExifError.parseFailure 0)

def selT0 : Bytes → ParsedInfo → Except RawFileReadingError (Bytes × Orientation) :=
  fun _ _ => Except.error RawFileReadingError.cannotReadMake

def c8buf : Bytes := [0xff, 0xd8, 0xff, 0x00, 0xff, 0xd9]

theorem c8_last_resort_witness :
    get_thumbnail parseFail selT0 c8buf =
      some (Except.ok (c8buf, Orientation.Horizontal)) := by
  have h := c8_last_resort parseFail selT0 c8buf
    (RawFileReadingError.exifParseError (ExifError.parseFailure 0)) (by decide)
  rw [h]
  decide

/-- `tiffAt` shifts across a `drop`. -/
theorem tiffAt_drop (l : Bytes) (k j : Nat) : tiffAt (l.drop k) j = tiffAt l (k + j) := by
  simp only [tiffAt, List.drop_drop, List.length_drop]
  congr 1
  rw [decide_eq_decide]
  omega

def c7ex : Bytes := [0x49, 0x49, 0x2a, 0x00] ++ exifHeader

/-- C7 counterexample: `c7ex` contains the Exif marker (first occurrence
at offset 4) with no metadata-container header at or after it, so under
the claim — which reserves the whole-buffer scan for the case where no
marker was found at all — the search must fail; the code instead falls
through to the whole-buffer scan and returns the slice at the TIFF
header located BEFORE the marker. -/
theorem c7_counterexample :
    findSub exifHeader c7ex = some 4 ∧
    findTiff (c7ex.drop 10) = none ∧
    canon_cr3_exif_slice c7ex = some c7ex := by decide

/-- C7 amended: on primary parse failure the fallback sniffer re-parses
the sub-slice located by the search and pairs the parsed info with that
sub-slice as the new effective buffer (it propagates the re-parse error
when the re-parse fails and the original error when no sub-slice
exists); the search takes the first metadata-container header at or
after the position just past the Exif marker — immediately after it or
scanned forward — and scans the entire buffer both when the marker is
absent AND when nothing follows the marker; it finds nothing only when
the buffer holds no container header at all. -/
theorem c7_fallback_search (parse : ParseFn) (buffer : Bytes) (e : ExifError)
    (hfix : fuji_buffer_slice_fix buffer = some buffer)
    (hp : parse buffer = Except.error e) :
    (parse_basic_info_with_fallback parse buffer =
      some (match canon_cr3_exif_slice buffer with
            | some sub =>
              (match parse sub with
               | Except.ok info => Except.ok (info, sub)
               | Except.error e2 => Except.error (RawFileReadingError.exifParseError e2))
            | none => Except.error (RawFileReadingError.exifParseError e))) ∧
    (∀ p, findSub exifHeader buffer = some p →
      (∀ rel, findTiff (buffer.drop (p + 6)) = some rel →
        canon_cr3_exif_slice buffer = some (buffer.drop (p + 6 + rel))) ∧
      (findTiff (buffer.drop (p + 6)) = none →
        canon_cr3_exif_slice buffer = (findTiff buffer).map fun q => buffer.drop q)) ∧
    (findSub exifHeader buffer = none →
      canon_cr3_exif_slice buffer = (findTiff buffer).map fun q => buffer.drop q) ∧
    (canon_cr3_exif_slice buffer = none ↔ findTiff buffer = none) := by
  refine ⟨?_, ?_, ?_, ⟨?_, ?_⟩⟩
  · simp only [parse_basic_info_with_fallback, hfix, hp]
    cases hs : canon_cr3_exif_slice buffer with
    | some sub =>
      cases hps : parse sub with
      | ok info => simp [hps]
      | error e2 => simp [hps]
    | none => simp
  · intro p hpfind
    constructor
    · intro rel hrel
      by_cases hi : p + 6 + 4 ≤ buffer.length ∧
          is_tiff_header ((buffer.drop (p + 6)).take 4) = true
      · have ht : tiffAt (buffer.drop (p + 6)) 0 = true := by
          simp only [tiffAt, List.drop_zero, List.length_drop]
          rw [Bool.and_eq_true]
          exact ⟨decide_eq_true (by omega), hi.2⟩
        have h0 : findTiff (buffer.drop (p + 6)) = some 0 :=
          (findTiff_eq_some_iff _ 0).mpr ⟨ht, fun j hj => absurd hj (Nat.not_lt_zero j)⟩
        rw [h0] at hrel
        obtain rfl : (0 : Nat) = rel := Option.some.inj hrel
        simp only [canon_cr3_exif_slice, hpfind]
        rw [if_pos hi]
      · simp only [canon_cr3_exif_slice, hpfind]
        rw [if_neg hi]
        simp only [hrel]
    · intro hnone
      have hi : ¬ (p + 6 + 4 ≤ buffer.length ∧
          is_tiff_header ((buffer.drop (p + 6)).take 4) = true) := by
        rintro ⟨ha, hb⟩
        have ht : tiffAt (buffer.drop (p + 6)) 0 = true := by
          simp only [tiffAt, List.drop_zero, List.length_drop]
          rw [Bool.and_eq_true]
          exact ⟨decide_eq_true (by omega), hb⟩
        have h0 : findTiff (buffer.drop (p + 6)) = some 0 :=
          (findTiff_eq_some_iff _ 0).mpr ⟨ht, fun j hj => absurd hj (Nat.not_lt_zero j)⟩
        rw [hnone] at h0
        cases h0
      simp only [canon_cr3_exif_slice, hpfind]
      rw [if_neg hi]
      simp only [hnone]
      cases findTiff buffer with
      | some q => rfl
      | none => rfl
  · intro hnone
    simp only [canon_cr3_exif_slice, hnone]
    cases findTiff buffer with
    | some q => rfl
    | none => rfl
  · intro hcanon
    cases hft : findTiff buffer with
    | none => rfl
    | some q =>
      exfalso
      cases hpf : findSub exifHeader buffer with
      | none =>
        simp only [canon_cr3_exif_slice, hpf, hft] at hcanon
        cases hcanon
      | some p =>
        by_cases hi : p + 6 + 4 ≤ buffer.length ∧
            is_tiff_header ((buffer.drop (p + 6)).take 4) = true
        · simp only [canon_cr3_exif_slice, hpf] at hcanon
          rw [if_pos hi] at hcanon
          cases hcanon
        · cases hrel : findTiff (buffer.drop (p + 6)) with
          | some rel =>
            simp only [canon_cr3_exif_slice, hpf] at hcanon
            rw [if_neg hi] at hcanon
            simp only [hrel] at hcanon
            cases hcanon
          | none =>
            simp only [canon_cr3_exif_slice, hpf] at hcanon
            rw [if_neg hi] at hcanon
            simp only [hrel, hft] at hcanon
            cases hcanon
  · intro hft
    have hnone : ∀ j, tiffAt buffer j = false := (findTiff_eq_none_iff buffer).mp hft
    cases hpf : findSub exifHeader buffer with
    | none => simp only [canon_cr3_exif_slice, hpf, hft]
    | some p =>
      have hdrop : findTiff (buffer.drop (p + 6)) = none := by
        refine (findTiff_eq_none_iff _).mpr fun j => ?_
        rw [tiffAt_drop]
        exact hnone (p + 6 + j)
      have hi : ¬ (p + 6 + 4 ≤ buffer.length ∧
          is_tiff_header ((buffer.drop (p + 6)).take 4) = true) := by
        rintro ⟨ha, hb⟩
        have ht : tiffAt buffer (p + 6) = true := by
          simp only [tiffAt]
          rw [Bool.and_eq_true]
          exact ⟨decide_eq_true (by omega), hb⟩
        rw [hnone (p + 6)] at ht
        cases ht
      simp only [canon_cr3_exif_slice, hpf]
      rw [if_neg hi]
      simp only [hdrop, hft]

def c7wbuf : Bytes := exifHeader ++ [0x49, 0x49, 0x2a, 0x00] ++ [0, 0]

theorem c7_fallback_search_witness :
    parse_basic_info_with_fallback parseFail c7wbuf =
      some (Except.error (RawFileReadingError.exifParseError (ExifError.parseFailure 0))) := by
  have h := (c7_fallback_search parseFail c7wbuf (ExifError.parseFailure 0)
    (by decide) (by decide)).1
  rw [h]
  decide

def c9parse : ParseFn := fun b =>
  if is_tiff_header (b.take 4) then Except.ok ⟨[]⟩
  else Except.error (ExifError.parseFailure 0)

def c9buf : Bytes := exifHeader ++ [0x49, 0x49, 0x2a, 0x00] ++ List.replicate 6 0

def selD0 : Bytes → ParsedInfo → Except RawFileReadingError Nat := fun _ _ => Except.ok 0

/-- C9 counterexample: on `c9buf` the primary parse fails but the
fallback sniffing used by the thumbnail and metadata entry points
succeeds via the embedded TIFF header, while the full-decode entry point
— which runs only the primary parse on the padded buffer, with no
fallback — fails before ever consulting its selector.  The entry points
therefore do not run the same sniffing logic, and thumbnail-sniffing
success does not imply full-decode sniffing success. -/
theorem c9_counterexample :
    c9parse c9buf = Except.error (ExifError.parseFailure 0) ∧
    parse_basic_info_with_fallback c9parse c9buf =
      some (Except.ok (⟨[]⟩, c9buf.drop 6)) ∧
    decode_buffer c9parse selD0 c9buf =
      some (Except.error (RawFileReadingError.exifParseError (ExifError.parseFailure 0))) := by
  decide

/-- C9 amended: the metadata-only and thumbnail-only entry points run
the same normalization and fallback sniffing — each call consumes
exactly the (info, effective buffer) pair produced afresh by
`parse_basic_info_with_fallback` — and differ only in what their
selector is asked to do; the full-decode entry point instead runs the
primary parse alone on the padded, vendor-unwrapped owned buffer, with
no fallback sniffing. -/
theorem c9_entry_points {α : Type} (parse : ParseFn)
    (selE : Bytes → ParsedInfo → Except RawFileReadingError ParsedInfo)
    (selT : Bytes → ParsedInfo → Except RawFileReadingError (Bytes × Orientation))
    (selD : Bytes → ParsedInfo → Except RawFileReadingError α)
    (buffer : Bytes) :
    (∀ info eb, parse_basic_info_with_fallback parse buffer = some (Except.ok (info, eb)) →
      get_exif_info parse selE buffer = some (selE eb info) ∧
      (try_cr3_thumbnail buffer = none →
        get_thumbnail parse selT buffer = some (selT eb info))) ∧
    (∀ e, parse_basic_info_with_fallback parse buffer = some (Except.error e) →
      get_exif_info parse selE buffer = some (Except.error e)) ∧
    (∀ pb, prepare_buffer buffer = some pb →
      decode_buffer parse selD buffer =
        some (match parse pb with
              | Except.ok info => selD pb info
              | Except.error e2 => Except.error (RawFileReadingError.exifParseError e2))) := by
  refine ⟨?_, ?_, ?_⟩
  · intro info eb h
    refine ⟨?_, ?_⟩
    · simp only [get_exif_info, h]
    · intro hcr
      simp only [get_thumbnail, hcr, h]
  · intro e h
    simp only [get_exif_info, h]
  · intro pb h
    simp only [decode_buffer, h]
    cases hps : parse pb with
    | ok info =>
      cases hsel : selD pb info with
      | ok x => simp [hsel]
      | error e2 => simp [hsel]
    | error e2 => simp

def selE0 : Bytes → ParsedInfo → Except RawFileReadingError ParsedInfo :=
  fun _ info => Except.ok info

theorem c9_entry_points_witness :
    get_exif_info c9parse selE0 c9buf = some (selE0 (c9buf.drop 6) ⟨[]⟩) ∧
    get_thumbnail c9parse selT0 c9buf = some (selT0 (c9buf.drop 6) ⟨[]⟩) := by
  have h := (c9_entry_points c9parse selE0 selT0 selD0 c9buf).1 ⟨[]⟩ (c9buf.drop 6)
    (by decide)
  exact ⟨h.1, h.2 (by decide)⟩

/-- C1 counterexample: the public slice-based thumbnail entry point
aborts (out-of-bounds `buffer[..4]` indexing) on any buffer shorter than
4 bytes, and the Canon decode capability aborts via its explicit
unimplemented marker on every input — both modelled as the `none`
(abort) outcome, refuting "returns a Result for any buffer contents or
length, with no panic, unimplemented abort, or indexing abort". -/
theorem c1_counterexample :
    get_thumbnail parseFail selT0 [] = none ∧
    General.decode_with_preprocess (General.new ⟨[]⟩) [0, 1, 2] = none := by
  decide

/-- C1 amended: the slice-based entry points `get_thumbnail` and
`get_exif_info` return a Result — Ok or an error value — and never abort
for every buffer of length at least 4 that, if it starts with the FUJI
vendor magic, has length at least 148; `decode_buffer` returns a Result
for every buffer that, if it starts with the magic, has length at least
132 (16 zero padding bytes are appended before the check);
`decode_with_preprocess` aborts with an explicit unimplemented marker by
design. -/
theorem c1_no_abort {α : Type} (parse : ParseFn)
    (selT : Bytes → ParsedInfo → Except RawFileReadingError (Bytes × Orientation))
    (selE : Bytes → ParsedInfo → Except RawFileReadingError ParsedInfo)
    (selD : Bytes → ParsedInfo → Except RawFileReadingError α)
    (b : Bytes) (h4 : 4 ≤ b.length) (hf : b.take 4 = fujiMagic → 148 ≤ b.length) :
    (get_thumbnail parse selT b).isSome ∧
    (get_exif_info parse selE b).isSome ∧
    (∀ b2 : Bytes, (b2.take 4 = fujiMagic → 132 ≤ b2.length) →
      (decode_buffer parse selD b2).isSome) ∧
    (∀ g buf, General.decode_with_preprocess g buf = none) := by
  have hfix : (fuji_buffer_slice_fix b).isSome := by
    by_cases hm : b.take 4 = fujiMagic
    · have hl := hf hm
      simp only [fuji_buffer_slice_fix]
      rw [if_neg (by omega), if_pos hm, if_neg (by omega)]
      rfl
    · simp only [fuji_buffer_slice_fix]
      rw [if_neg (by omega), if_neg hm]
      rfl
  obtain ⟨fb, hfb⟩ := Option.isSome_iff_exists.mp hfix
  have hsniff : (parse_basic_info_with_fallback parse b).isSome := by
    cases hpb : parse fb with
    | ok info => simp [parse_basic_info_with_fallback, hfb, hpb]
    | error e =>
      cases hcs : canon_cr3_exif_slice fb with
      | some sub =>
        cases hps : parse sub with
        | ok i2 => simp [parse_basic_info_with_fallback, hfb, hpb, hcs, hps]
        | error e2 => simp [parse_basic_info_with_fallback, hfb, hpb, hcs, hps]
      | none => simp [parse_basic_info_with_fallback, hfb, hpb, hcs]
  obtain ⟨res, hres⟩ := Option.isSome_iff_exists.mp hsniff
  refine ⟨?_, ?_, ?_, fun _ _ => rfl⟩
  · cases hcr : try_cr3_thumbnail b with
    | some r => simp [get_thumbnail, hcr]
    | none =>
      cases res with
      | ok pr =>
        obtain ⟨info, eb⟩ := pr
        simp [get_thumbnail, hcr, hres]
      | error e =>
        cases hl : largest_jpeg_slice b with
        | some j => simp [get_thumbnail, hcr, hres, hl]
        | none => simp [get_thumbnail, hcr, hres, hl]
  · cases res with
    | ok pr =>
      obtain ⟨info, eb⟩ := pr
      simp [get_exif_info, hres]
    | error e => simp [get_exif_info, hres]
  · intro b2 hf2
    have hprep : (prepare_buffer b2).isSome := by
      simp only [prepare_buffer]
      by_cases hm : (b2 ++ List.replicate 16 0).take 4 = fujiMagic
      · have hlen4 : 4 ≤ b2.length := by
          by_contra hlt
          push_neg at hlt
          cases b2 with
          | nil => exact absurd hm (by decide)
          | cons a t =>
            cases t with
            | nil =>
              have hev : ([a] ++ List.replicate 16 0).take 4 = [a, 0, 0, 0] := rfl
              rw [hev] at hm
              simp [fujiMagic] at hm
            | cons a2 t2 =>
              cases t2 with
              | nil =>
                have hev : ([a, a2] ++ List.replicate 16 0).take 4 = [a, a2, 0, 0] := rfl
                rw [hev] at hm
                simp [fujiMagic] at hm
              | cons a3 t3 =>
                cases t3 with
                | nil =>
                  have hev : ([a, a2, a3] ++ List.replicate 16 0).take 4 =
                      [a, a2, a3, 0] := rfl
                  rw [hev] at hm
                  simp [fujiMagic] at hm
                | cons a4 t4 =>
                  simp only [List.length_cons] at hlt
                  omega
        have hm2 : b2.take 4 = fujiMagic := by
          rw [List.take_append_eq_append_take] at hm
          rw [show 4 - b2.length = 0 from by omega] at hm
          simpa using hm
        have hl2 := hf2 hm2
        simp only [fuji_buffer_fix]
        rw [if_neg (by simp only [List.length_append, List.length_replicate]; omega), if_pos hm,
          if_neg (by simp only [List.length_append, List.length_replicate]; omega)]
        rfl
      · simp only [fuji_buffer_fix]
        rw [if_neg (by simp only [List.length_append, List.length_replicate]; omega), if_neg hm]
        rfl
    obtain ⟨pb, hpb⟩ := Option.isSome_iff_exists.mp hprep
    cases hps : parse pb with
    | ok info =>
      cases hsel : selD pb info with
      | ok x => simp [decode_buffer, hpb, hps, hsel]
      | error e => simp [decode_buffer, hpb, hps, hsel]
    | error e => simp [decode_buffer, hpb, hps]

def c1wbuf : Bytes := [0xff, 0xd8, 0xff, 0xd9]

theorem c1_no_abort_witness :
    (get_thumbnail parseFail selT0 c1wbuf).isSome ∧
    (get_exif_info parseFail selE0 c1wbuf).isSome ∧
    (∀ b2 : Bytes, (b2.take 4 = fujiMagic → 132 ≤ b2.length) →
      (decode_buffer parseFail selD0 b2).isSome) ∧
    (∀ g buf, General.decode_with_preprocess g buf = none) :=
  c1_no_abort parseFail selT0 selE0 selD0 c1wbuf (by decide) (by decide)

end Quickraw
